import Mathlib

/-!
Verification of the Metronome web app core (scheduler, tap-tempo estimator,
practice progression state machine), shallowly embedded from the JavaScript
source.  Times and tempos are modelled as rationals (the source works with
JS numbers on which all the operations appearing here are exact); the
`Math.floor` / `Math.round` calls of the source become `Int.floor` and
`jsRound` below.
-/

/-- A pulse event handed to the renderer by `Metronome._schedule` via
`_playClick(time, {main})`.  `bpmAtGen` is ghost instrumentation recording
the tempo in effect when the event was generated (the source does not store
it on the event); it lets the spacing property of adjacent main beats be
stated without reference to the trace. -/
structure PulseEvent where
  time : ℚ
  main : Bool
  bpmAtGen : ℚ
deriving DecidableEq

/-- The scheduler state of the `Metronome` class: `bpm`, `subdivision` and
the scheduling cursor `nextTime` (`this.nextTime` in the source).  The audio
context, running flag and timer id are platform resources out of scope. -/
structure Metronome where
  bpm : ℚ
  subdivision : ℕ
  nextTime : ℚ
deriving DecidableEq

/-- `setBpm(bpm) { this.bpm = Number(bpm); }` — the raw numeric value is
stored, with no clamping. -/
def Metronome.setBpm (m : Metronome) (b : ℚ) : Metronome :=
  { m with bpm := b }

/-- `setSubdivision(n) { this.subdivision = Math.max(1, Math.floor(Number(n) || 1)); }`.
`Number(n) || 1` replaces a zero (or non-numeric, not modelled: the callers
pass integers) value by 1. -/
def Metronome.setSubdivision (m : Metronome) (n : ℚ) : Metronome :=
  let v : ℚ := if n = 0 then 1 else n
  { m with subdivision := (max 1 ⌊v⌋).toNat }

/-- The subdivision clicks of one main beat: the inner `for` loop of
`_schedule`, `i = 1 .. subdivision-1`, each at offset `(i/subdivision) * beatDuration`. -/
def subEvents (t d : ℚ) (s : ℕ) (b : ℚ) : List PulseEvent :=
  (List.range (s - 1)).map
    (fun i : ℕ => ⟨t + (((i : ℚ) + 1) / (s : ℚ)) * d, false, b⟩)

/-- All events of one iteration of the `_schedule` while loop: the main
beat at `t` followed by its subdivision clicks.  (The source guards the
inner loop with `subdivision > 1`; for `subdivision = 1` the loop body is
empty anyway, so the guard is behaviourally irrelevant.) -/
def beatEvents (t d : ℚ) (s : ℕ) (b : ℚ) : List PulseEvent :=
  ⟨t, true, b⟩ :: subEvents t d s b

/-- The while loop of `Metronome._schedule`:
`while (nextTime < currentTime + 0.1) { emit beat; nextTime += beatDuration }`
with `beatDuration = 60 / bpm` (constant during one call, as in the source).
`fuel` bounds the number of iterations so the definition is total; the
termination theorems show a small concrete fuel already reaches the loop's
exit condition for every in-range tempo.  Result: emitted events, final
cursor, iteration count. -/
def schedLoop : ℕ → ℚ → ℕ → ℚ → ℚ → List PulseEvent × ℚ × ℕ
  | 0, _, _, next, _ => ([], next, 0)
  | fuel + 1, bpm, s, next, limit =>
    if next < limit then
      let d := 60 / bpm
      let r := schedLoop fuel bpm s (next + d) limit
      (beatEvents next d s bpm ++ r.1, r.2.1, r.2.2 + 1)
    else ([], next, 0)

/-- One tick of the scheduler (`Metronome._schedule`), at clock time `now`,
with lookahead window `0.1` seconds. -/
def Metronome.schedule (m : Metronome) (now : ℚ) (fuel : ℕ) :
    List PulseEvent × Metronome :=
  let r := schedLoop fuel m.bpm m.subdivision m.nextTime (now + 1 / 10)
  (r.1, { m with nextTime := r.2.1 })

/-- The main-beat subsequence of an event stream. -/
def mains (l : List PulseEvent) : List PulseEvent :=
  l.filter (fun e => e.main)

/-- Commands that can reach the scheduler between audio events: a tick of
`_schedule` (at some clock time, with some loop fuel), or one of the two
setters. -/
inductive Cmd where
  | tick (now : ℚ) (fuel : ℕ)
  | setBpm (b : ℚ)
  | setSubdivision (n : ℚ)
deriving DecidableEq

/-- Effect of one command on the scheduler. -/
def stepCmd (m : Metronome) : Cmd → List PulseEvent × Metronome
  | .tick now fuel => m.schedule now fuel
  | .setBpm b => ([], m.setBpm b)
  | .setSubdivision n => ([], m.setSubdivision n)

/-- Run a command sequence, concatenating all emitted events in order. -/
def runCmds : Metronome → List Cmd → List PulseEvent × Metronome
  | m, [] => ([], m)
  | m, c :: cs =>
    let r := stepCmd m c
    let r2 := runCmds r.2 cs
    (r.1 ++ r2.1, r2.2)

/-- A command is valid when any tempo it installs is in the documented
range `[20, 300]`. -/
def ValidCmd : Cmd → Prop
  | .tick _ _ => True
  | .setBpm b => 20 ≤ b ∧ b ≤ 300
  | .setSubdivision _ => True

instance : DecidablePred ValidCmd := fun c =>
  match c with
  | .tick _ _ => isTrue trivial
  | .setBpm b => inferInstanceAs (Decidable (20 ≤ b ∧ b ≤ 300))
  | .setSubdivision _ => isTrue trivial

/-- `Math.round` of JavaScript: round half away from zero is
`Math.floor(x + 0.5)` for the positive values arising here; the source
itself only ever rounds positive quantities. -/
def jsRound (x : ℚ) : ℤ := ⌊x + 1 / 2⌋

/-- `_doIncrement(delta)`:
`Math.max(20, Math.min(300, Math.round(metro.bpm + delta)))`, then `setBpm`. -/
def doIncrement (m : Metronome) (delta : ℚ) : Metronome :=
  m.setBpm (max 20 (min 300 ((jsRound (m.bpm + delta) : ℤ) : ℚ)))

/-- Consecutive inter-tap intervals, `intervals[i] = tapTimes[i+1] - tapTimes[i]`. -/
def intervalsOf (l : List ℚ) : List ℚ :=
  List.zipWith (fun a b => b - a) l l.tail

/-- The effect of the 5000 ms `setTimeout` the source arms on every tap to
clear `tapTimes` (and cancels on the next tap): a tap arriving more than
5000 ms after the previous one sees an empty buffer.  This is the timer's
only observable effect, modelled as an expiry check at the next tap. -/
def tapExpire (tapTimes : List ℚ) (now : ℚ) : List ℚ :=
  match tapTimes.getLast? with
  | some last => if now - last > 5000 then [] else tapTimes
  | none => tapTimes

/-- The buffer update of `handleTap()`: `tapTimes.push(now)` followed by
`if (tapTimes.length > 5) tapTimes.shift()` — keep only the last 5 taps. -/
def tapBufferAfter (tapTimes : List ℚ) (now : ℚ) : List ℚ :=
  if 5 < (tapExpire tapTimes now ++ [now]).length
  then (tapExpire tapTimes now ++ [now]).tail
  else tapExpire tapTimes now ++ [now]

/-- `handleTap()` on the tap-time buffer (timestamps in milliseconds) and
the metronome: update the buffer, and with at least 2 taps set the tempo to
`Math.max(20, Math.min(300, Math.round(60000 / avgInterval)))` where
`avgInterval` is the arithmetic mean of the consecutive inter-tap
intervals. -/
def handleTap (tapTimes : List ℚ) (now : ℚ) (m : Metronome) :
    List ℚ × Metronome :=
  let ts := tapBufferAfter tapTimes now
  if 2 ≤ ts.length then
    let intervals := intervalsOf ts
    let avgInterval := intervals.sum / (intervals.length : ℚ)
    let avgBpm : ℤ := jsRound (60000 / avgInterval)
    let newBpm : ℚ := max 20 (min 300 (avgBpm : ℚ))
    (ts, m.setBpm newBpm)
  else (ts, m)

/-- Pulse note values selectable in the practice settings; the source keys
them by the strings "whole" .. "sixteenth". -/
inductive PulseUnit where
  | whole
  | half
  | quarter
  | eighth
  | sixteenth
deriving DecidableEq

/-- The integer denominator a `PulseUnit` maps to (the `targetPulseInt` /
`currentPulse` assignments of the source). -/
def PulseUnit.toQ : PulseUnit → ℚ
  | .whole => 1
  | .half => 2
  | .quarter => 4
  | .eighth => 8
  | .sixteenth => 16

/-- The `practiceSettings` global (numeric fields as rationals, pulse
fields as `PulseUnit`).  `savePracticeSettings` is modelled separately
because its penalty field can end up NaN. -/
structure PracticeSettings where
  startingBpm : ℚ
  startingPulse : PulseUnit
  targetBpm : ℚ
  targetPulse : PulseUnit
  requiredCorrect : ℚ
  increment : ℚ
  penalty : ℚ
deriving DecidableEq

/-- The mutable `practiceState` global (session counters and tempo); the
DOM dot elements and timestamps are UI concerns left out. -/
structure PracticeState where
  currentBpm : ℚ
  correctCount : ℕ
  consecutiveFails : ℕ
  currentPulse : ℚ
deriving DecidableEq

/-- The module-level state the practice handlers touch: the metronome, the
`practiceMode` flag, the settings and the session state. -/
structure Sys where
  metro : Metronome
  practiceMode : Bool
  settings : PracticeSettings
  state : PracticeState
deriving DecidableEq

/-- `startPracticeMode()`: seed `currentBpm` from the settings, push it to
the metronome, reset both counters, set `currentPulse` from
`startingPulse`.  (Dots, logging, the stopwatch monitor and starting the
transport are UI/platform effects.) -/
def startPracticeMode (sys : Sys) : Sys :=
  { sys with
    practiceMode := true
    metro := sys.metro.setBpm sys.settings.startingBpm
    state := { sys.state with
      currentBpm := sys.settings.startingBpm
      correctCount := 0
      consecutiveFails := 0
      currentPulse := sys.settings.startingPulse.toQ } }

/-- `handlePass()`.  Returns the new state and whether the
session-completed path (`showMessage` + `exitPracticeMode`) was taken. -/
def handlePass (sys : Sys) : Sys × Bool :=
  if sys.practiceMode = false then (sys, false) else
  let st := sys.state
  let stg := sys.settings
  let cc := st.correctCount + 1
  let tp := stg.targetPulse.toQ
  if stg.requiredCorrect ≤ (cc : ℚ) then
    if stg.targetBpm / tp ≤ st.currentBpm / st.currentPulse then
      ({ sys with
          practiceMode := false
          state := { st with correctCount := cc, consecutiveFails := 0 } },
        true)
    else
      let nb := min (stg.targetBpm / tp * st.currentPulse) (st.currentBpm + stg.increment)
      ({ sys with
          metro := sys.metro.setBpm nb
          state := { st with
            currentBpm := nb
            correctCount := 0
            consecutiveFails := 0 } },
        false)
  else
    ({ sys with state := { st with correctCount := cc, consecutiveFails := 0 } },
      false)

/-- `handleFail()`.  Returns the new state and whether the suggest-break
message was shown. -/
def handleFail (sys : Sys) : Sys × Bool :=
  if sys.practiceMode = false then (sys, false) else
  let st := sys.state
  let cf := st.consecutiveFails + 1
  let nb := max 20 (st.currentBpm - sys.settings.penalty)
  if 3 ≤ cf then
    ({ sys with
        metro := sys.metro.setBpm nb
        state := { st with
          consecutiveFails := 0
          correctCount := 0
          currentBpm := nb } },
      true)
  else
    ({ sys with
        metro := sys.metro.setBpm nb
        state := { st with
          consecutiveFails := cf
          correctCount := 0
          currentBpm := nb } },
      false)

/-- `startHoldInc()`: in practice mode the + button doubles the pulse
(`Math.min(300, Math.floor(metro.bpm * 2))`, `currentPulse *= 2`) when
`currentPulse < 16`; outside practice mode its immediate effect is a single
`_doIncrement(1)` (the auto-repeat timers are UI timing, not modelled). -/
def startHoldInc (sys : Sys) : Sys :=
  if sys.practiceMode then
    if sys.state.currentPulse < 16 then
      let newBpm : ℚ := min 300 ((⌊sys.metro.bpm * 2⌋ : ℤ) : ℚ)
      { sys with
        metro := sys.metro.setBpm newBpm
        state := { sys.state with
          currentBpm := newBpm
          currentPulse := sys.state.currentPulse * 2 } }
    else sys
  else
    { sys with metro := doIncrement sys.metro 1 }

/-- `startHoldDec()`: in practice mode the - button halves the pulse
(`Math.max(20, Math.floor(metro.bpm / 2))`, `currentPulse /= 2`) when
`currentPulse > 1`; outside practice mode, a single `_doIncrement(-1)`. -/
def startHoldDec (sys : Sys) : Sys :=
  if sys.practiceMode then
    if 1 < sys.state.currentPulse then
      let newBpm : ℚ := max 20 ((⌊sys.metro.bpm / 2⌋ : ℤ) : ℚ)
      { sys with
        metro := sys.metro.setBpm newBpm
        state := { sys.state with
          currentBpm := newBpm
          currentPulse := sys.state.currentPulse / 2 } }
    else sys
  else
    { sys with metro := doIncrement sys.metro (-1) }

/-- Iterate `handlePass`, keeping the state component. -/
def passes : ℕ → Sys → Sys
  | 0, s => s
  | n + 1, s => passes n (handlePass s).1

/-- A JavaScript number that may be NaN: `none` models NaN, `some q` a real
value.  The arithmetic the settings form performs on possibly-NaN values is
modelled field by field below. -/
def JSNum := Option ℚ

/-- `Number(field.value) || fallback`: NaN and 0 are falsy, any other
number is taken as is. -/
def jsOr (v : Option ℚ) (fallback : ℚ) : ℚ :=
  match v with
  | none => fallback
  | some q => if q = 0 then fallback else q

/-- The numeric fields stored by `savePracticeSettings`.  `penalty` is an
`Option ℚ` because `Math.max(0, NaN)` is NaN: a non-numeric penalty input
is stored as NaN (`none`).  (The pulse fields are chosen from a fixed glyph
cycle in the UI and are always one of the five valid units; they are
omitted here.) -/
structure StoredSettings where
  startingBpm : ℚ
  targetBpm : ℚ
  requiredCorrect : ℚ
  increment : ℚ
  penalty : Option ℚ
deriving DecidableEq

/-- `savePracticeSettings()` on the five numeric inputs (each `none` when
`Number(input.value)` is NaN):
`startingBpm = Number(v) || prev`, `targetBpm = Number(v) || prev`,
`requiredCorrect = Math.max(1, Number(v) || prev)`,
`increment = Math.max(1, Number(v) || prev)`,
`penalty = Math.max(0, Number(v))` — note the missing `|| prev` fallback on
the penalty line, so NaN propagates. -/
def savePracticeSettings (prev : StoredSettings)
    (vStart vTarget vReq vInc vPen : Option ℚ) : StoredSettings :=
  { startingBpm := jsOr vStart prev.startingBpm
    targetBpm := jsOr vTarget prev.targetBpm
    requiredCorrect := max 1 (jsOr vReq prev.requiredCorrect)
    increment := max 1 (jsOr vInc prev.increment)
    penalty := match vPen with
      | none => none
      | some q => some (max 0 q) }

/-- Specification of one generated segment of the event stream: all events
lie in `[startT, endT)`, are strictly sorted in time, the main beats are
spaced by `60 / bpmAtGen` of the earlier beat, the first event (if any) is
a main beat exactly at `startT`, the last main beat commits the cursor to
`endT`, and an empty segment leaves the cursor where it was.  The
composition lemma for this predicate is what makes the ordering proof go
through tick and setter boundaries. -/
structure SegSpec (startT : ℚ) (evs : List PulseEvent) (endT : ℚ) : Prop where
  bounds : ∀ e ∈ evs, startT ≤ e.time ∧ e.time < endT
  startLe : startT ≤ endT
  sorted : evs.Chain' (fun a b => a.time < b.time)
  spaced : (mains evs).Chain' (fun a b => b.time = a.time + 60 / a.bpmAtGen)
  headMain : ∀ e, evs.head? = some e → e.time = startT ∧ e.main = true
  lastLink : ∀ e, (mains evs).getLast? = some e → e.time + 60 / e.bpmAtGen = endT
  emptyEnd : evs = [] → endT = startT

/-- The concrete practice session of the specification's worked example:
settings `{startingBpm: 60, startingPulse: quarter, targetBpm: 120,
targetPulse: quarter, requiredCorrect: 1, increment: 10, penalty: 10}`,
just after `startPracticeMode()`. -/
def practiceDemoSys : Sys :=
  startPracticeMode
    { metro := ⟨100, 1, 0⟩
      practiceMode := false
      settings :=
        { startingBpm := 60
          startingPulse := .quarter
          targetBpm := 120
          targetPulse := .quarter
          requiredCorrect := 1
          increment := 10
          penalty := 10 }
      state := ⟨60, 0, 0, 4⟩ }

/-- A practice-mode state at `{bpm: 60, pulseUnit: 4}` (metronome and
session in sync), the starting point of the pulse-scaling round trip. -/
def scaleDemoSys : Sys :=
  { metro := ⟨60, 1, 0⟩
    practiceMode := true
    settings :=
      { startingBpm := 60
        startingPulse := .quarter
        targetBpm := 120
        targetPulse := .quarter
        requiredCorrect := 1
        increment := 10
        penalty := 10 }
    state := ⟨60, 0, 0, 4⟩ }

theorem mains_append (l₁ l₂ : List PulseEvent) :
    mains (l₁ ++ l₂) = mains l₁ ++ mains l₂ :=
  List.filter_append _ _

theorem mem_subEvents {t d : ℚ} {s : ℕ} {b : ℚ} {e : PulseEvent} :
    e ∈ subEvents t d s b ↔
      ∃ i : ℕ, i < s - 1 ∧ e = ⟨t + (((i : ℚ) + 1) / (s : ℚ)) * d, false, b⟩ := by
  rw [subEvents]
  constructor
  · intro he
    obtain ⟨i, hi, rfl⟩ := List.mem_map.1 he
    exact ⟨i, List.mem_range.1 hi, rfl⟩
  · rintro ⟨i, hi, rfl⟩
    exact List.mem_map.2 ⟨i, List.mem_range.2 hi, rfl⟩

theorem mains_subEvents (t d : ℚ) (s : ℕ) (b : ℚ) :
    mains (subEvents t d s b) = [] := by
  rw [mains, List.filter_eq_nil_iff]
  intro e he
  obtain ⟨i, _, rfl⟩ := mem_subEvents.mp he
  simp

theorem subEvents_bounds {t d : ℚ} {s : ℕ} {b : ℚ} (hd : 0 < d) :
    ∀ e ∈ subEvents t d s b, t < e.time ∧ e.time < t + d := by
  intro e he
  obtain ⟨i, hi, rfl⟩ := mem_subEvents.mp he
  have hs2 : 2 ≤ s := by omega
  have hs0 : (0 : ℚ) < (s : ℚ) := by exact_mod_cast (by omega : 0 < s)
  constructor
  · have hpos : (0 : ℚ) < ((i : ℚ) + 1) / (s : ℚ) * d := by positivity
    simpa using by linarith
  · have hlt : ((i : ℚ) + 1) / (s : ℚ) < 1 := by
      rw [div_lt_one hs0]
      exact_mod_cast (by omega : i + 1 < s)
    have : ((i : ℚ) + 1) / (s : ℚ) * d < 1 * d := mul_lt_mul_of_pos_right hlt hd
    simpa using by linarith

theorem subEvents_sorted {t d : ℚ} {s : ℕ} {b : ℚ} (hd : 0 < d) (hs : 1 ≤ s) :
    (subEvents t d s b).Chain' (fun x y => x.time < y.time) := by
  have hs' : 0 < s := hs
  have hs0 : (0 : ℚ) < (s : ℚ) := by exact_mod_cast hs'
  rw [subEvents, List.chain'_map]
  cases hn : s - 1 with
  | zero => simp
  | succ n =>
    rw [List.chain'_range_succ]
    intro m _
    simp only
    have h1 : ((m : ℚ) + 1) / (s : ℚ) < (((m + 1 : ℕ) : ℚ) + 1) / (s : ℚ) := by
      rw [div_lt_div_iff_of_pos_right hs0]
      push_cast
      linarith
    have := mul_lt_mul_of_pos_right h1 hd
    linarith

theorem segSpec_nil (t : ℚ) : SegSpec t [] t := by
  constructor <;> simp [mains]

theorem SegSpec.mains_eq_nil {a b : ℚ} {l : List PulseEvent}
    (h : SegSpec a l b) (hm : mains l = []) : l = [] := by
  cases l with
  | nil => rfl
  | cons e t =>
    have he := h.headMain e rfl
    rw [mains, List.filter_cons_of_pos (by simp [he.2])] at hm
    cases hm

theorem SegSpec.mains_head {a b : ℚ} {l : List PulseEvent}
    (h : SegSpec a l b) {y : PulseEvent} (hy : (mains l).head? = some y) :
    y.time = a := by
  cases l with
  | nil => simp [mains] at hy
  | cons e t =>
    have he := h.headMain e rfl
    rw [mains, List.filter_cons_of_pos (by simp [he.2])] at hy
    rw [List.head?_cons, Option.some.injEq] at hy
    rw [← hy]
    exact he.1

theorem SegSpec.append {a b c : ℚ} {l₁ l₂ : List PulseEvent}
    (h₁ : SegSpec a l₁ b) (h₂ : SegSpec b l₂ c) : SegSpec a (l₁ ++ l₂) c := by
  constructor
  · intro e he
    rcases List.mem_append.1 he with h | h
    · obtain ⟨u, v⟩ := h₁.bounds e h
      exact ⟨u, lt_of_lt_of_le v h₂.startLe⟩
    · obtain ⟨u, v⟩ := h₂.bounds e h
      exact ⟨le_trans h₁.startLe u, v⟩
  · exact le_trans h₁.startLe h₂.startLe
  · rw [List.chain'_append]
    refine ⟨h₁.sorted, h₂.sorted, ?_⟩
    intro x hx y hy
    have hxl : x ∈ l₁ := List.mem_of_mem_getLast? hx
    have hxb : x.time < b := (h₁.bounds x hxl).2
    have hyb : y.time = b := (h₂.headMain y hy).1
    rw [hyb]; exact hxb
  · rw [mains_append, List.chain'_append]
    refine ⟨h₁.spaced, h₂.spaced, ?_⟩
    intro x hx y hy
    have hb := h₁.lastLink x hx
    have hy' := h₂.mains_head hy
    rw [hy', ← hb]
  · intro e he
    cases l₁ with
    | nil =>
      have hba : b = a := h₁.emptyEnd rfl
      rw [List.nil_append] at he
      have := h₂.headMain e he
      rw [hba] at this
      exact this
    | cons x t =>
      rw [List.cons_append, List.head?_cons, Option.some.injEq] at he
      rw [← he]
      exact h₁.headMain x rfl
  · intro e he
    rw [mains_append] at he
    by_cases hm : mains l₂ = []
    · have hl₂ : l₂ = [] := h₂.mains_eq_nil hm
      have hcb : c = b := h₂.emptyEnd hl₂
      rw [hm, List.append_nil] at he
      rw [hcb]
      exact h₁.lastLink e he
    · rw [List.getLast?_append_of_ne_nil _ hm] at he
      exact h₂.lastLink e he
  · intro h
    obtain ⟨u, v⟩ := List.append_eq_nil.1 h
    rw [h₂.emptyEnd v, h₁.emptyEnd u]

theorem segSpec_beat {bpm : ℚ} (hb : 0 < bpm) {s : ℕ} (hs : 1 ≤ s) (t : ℚ) :
    SegSpec t (beatEvents t (60 / bpm) s bpm) (t + 60 / bpm) := by
  have hd : (0 : ℚ) < 60 / bpm := by positivity
  have hmains : mains (beatEvents t (60 / bpm) s bpm) = [⟨t, true, bpm⟩] := by
    rw [beatEvents, mains, List.filter_cons_of_pos (by simp), ← mains, mains_subEvents]
  constructor
  · intro e he
    rcases List.mem_cons.1 he with rfl | hsub
    · exact ⟨le_refl _, by simpa using by linarith⟩
    · have h := subEvents_bounds hd e hsub
      exact ⟨le_of_lt h.1, h.2⟩
  · linarith
  · rw [beatEvents, List.chain'_cons']
    refine ⟨?_, subEvents_sorted hd hs⟩
    intro y hy
    have hmem := List.mem_of_mem_head? hy
    exact (subEvents_bounds hd y hmem).1
  · rw [hmains]
    simp
  · intro e he
    rw [beatEvents, List.head?_cons, Option.some.injEq] at he
    rw [← he]
    exact ⟨rfl, rfl⟩
  · intro e he
    rw [hmains] at he
    simp only [List.getLast?_singleton, Option.some.injEq] at he
    rw [← he]
  · intro h
    simp [beatEvents] at h

theorem segSpec_schedLoop {bpm : ℚ} (hb : 0 < bpm) {s : ℕ} (hs : 1 ≤ s) :
    ∀ (fuel : ℕ) (next limit : ℚ),
      SegSpec next (schedLoop fuel bpm s next limit).1
        (schedLoop fuel bpm s next limit).2.1 := by
  intro fuel
  induction fuel with
  | zero => intro next limit; simpa [schedLoop] using segSpec_nil next
  | succ f ih =>
    intro next limit
    by_cases h : next < limit
    · simp only [schedLoop, if_pos h]
      exact (segSpec_beat hb hs next).append (ih (next + 60 / bpm) limit)
    · simp only [schedLoop, if_neg h]
      exact segSpec_nil next

theorem subdivision_setSubdivision (m : Metronome) (n : ℚ) :
    1 ≤ (m.setSubdivision n).subdivision := by
  have h : (1 : ℤ) ≤ max 1 ⌊if n = 0 then (1 : ℚ) else n⌋ := le_max_left _ _
  show 1 ≤ (max 1 ⌊if n = 0 then (1 : ℚ) else n⌋).toNat
  omega

theorem segSpec_runCmds : ∀ (cs : List Cmd) (m : Metronome),
    0 < m.bpm → 1 ≤ m.subdivision → (∀ c ∈ cs, ValidCmd c) →
    SegSpec m.nextTime (runCmds m cs).1 (runCmds m cs).2.nextTime := by
  intro cs
  induction cs with
  | nil => intro m _ _ _; simpa [runCmds] using segSpec_nil m.nextTime
  | cons c cs ih =>
    intro m hb hs hv
    have hvc : ValidCmd c := hv c (List.mem_cons_self _ _)
    have hvs : ∀ c' ∈ cs, ValidCmd c' := fun c' h => hv c' (List.mem_cons_of_mem _ h)
    cases c with
    | tick now fuel =>
      simp only [runCmds, stepCmd, Metronome.schedule]
      have h1 := segSpec_schedLoop hb hs fuel m.nextTime (now + 1 / 10)
      have h2 := ih
        { m with nextTime :=
            (schedLoop fuel m.bpm m.subdivision m.nextTime (now + 1 / 10)).2.1 }
        hb hs hvs
      exact h1.append h2
    | setBpm b =>
      obtain ⟨hb1, _⟩ := hvc
      have hb' : 0 < (m.setBpm b).bpm := by
        rw [Metronome.setBpm]; dsimp only; linarith
      have := ih (m.setBpm b) hb' hs hvs
      simpa [runCmds, stepCmd, Metronome.setBpm] using this
    | setSubdivision n =>
      have hs' : 1 ≤ (m.setSubdivision n).subdivision :=
        subdivision_setSubdivision m n
      have hb' : 0 < (m.setSubdivision n).bpm := hb
      have := ih (m.setSubdivision n) hb' hs' hvs
      simpa [runCmds, stepCmd, Metronome.setSubdivision] using this

theorem schedLoop_of_not_lt {bpm : ℚ} {s : ℕ} {next limit : ℚ}
    (h : ¬ next < limit) :
    ∀ fuel, schedLoop fuel bpm s next limit = ([], next, 0)
  | 0 => rfl
  | fuel + 1 => by simp [schedLoop, h]

theorem schedLoop_complete {bpm : ℚ} {s : ℕ} {limit : ℚ} :
    ∀ (B : ℕ) (next : ℚ), limit - next ≤ (B : ℚ) * (60 / bpm) →
      limit ≤ (schedLoop B bpm s next limit).2.1 ∧
      (schedLoop B bpm s next limit).2.2 ≤ B := by
  intro B
  induction B with
  | zero =>
    intro next h
    simp only [Nat.cast_zero, zero_mul] at h
    simp only [schedLoop]
    exact ⟨by linarith, le_refl 0⟩
  | succ f ih =>
    intro next h
    by_cases hc : next < limit
    · simp only [schedLoop, if_pos hc]
      have hrec := ih (next + 60 / bpm) (by push_cast at h ⊢; linarith)
      exact ⟨hrec.1, by omega⟩
    · simp only [schedLoop, if_neg hc]
      exact ⟨not_lt.1 hc, Nat.zero_le _⟩

theorem schedLoop_fuel_stable {bpm : ℚ} {s : ℕ} {limit : ℚ} :
    ∀ (B : ℕ) (next : ℚ), limit - next ≤ (B : ℚ) * (60 / bpm) →
      ∀ f, schedLoop (B + f) bpm s next limit = schedLoop B bpm s next limit := by
  intro B
  induction B with
  | zero =>
    intro next h f
    have hc : ¬ next < limit := by
      simp only [Nat.cast_zero, zero_mul] at h
      exact not_lt.2 (by linarith)
    rw [schedLoop_of_not_lt hc, schedLoop_of_not_lt hc]
  | succ B ih =>
    intro next h f
    by_cases hc : next < limit
    · have harith : B + 1 + f = (B + f) + 1 := by omega
      rw [harith]
      simp only [schedLoop, if_pos hc]
      rw [ih (next + 60 / bpm) (by push_cast at h ⊢; linarith) f]
    · rw [schedLoop_of_not_lt hc, schedLoop_of_not_lt hc]

theorem tapExpire_length_le (ts : List ℚ) (now : ℚ) :
    (tapExpire ts now).length ≤ ts.length := by
  rw [tapExpire]
  cases ts.getLast? with
  | none => exact le_refl _
  | some last =>
    dsimp only
    split
    · simp
    · exact le_refl _

theorem tapBufferAfter_length_le (ts : List ℚ) (now : ℚ) (h : ts.length ≤ 5) :
    (tapBufferAfter ts now).length ≤ 5 := by
  have he : (tapExpire ts now ++ [now]).length ≤ 6 := by
    have := tapExpire_length_le ts now
    simp only [List.length_append, List.length_singleton]
    omega
  rw [tapBufferAfter]
  split
  · rw [List.length_tail]
    omega
  · omega

theorem notMains_beatEvents (t d : ℚ) (s : ℕ) (b : ℚ) :
    (beatEvents t d s b).filter (fun e => !e.main) = subEvents t d s b := by
  rw [beatEvents, List.filter_cons_of_neg (by simp)]
  apply List.filter_eq_self.mpr
  intro e he
  obtain ⟨i, _, rfl⟩ := mem_subEvents.mp he
  simp

/-- C1 counterexample: `setBpm` does not clamp.  Calling `setBpm(500)`
stores 500, so the claim that after any call the stored bpm lies in
`[20, 300]` is false. -/
theorem C1_counterexample :
    ((Metronome.mk 100 1 0).setBpm 500).bpm = 500
    ∧ ¬ ((Metronome.mk 100 1 0).setBpm 500).bpm ≤ 300 := by
  decide

/-- C1 (amended): `setBpm` stores the raw numeric value unchanged — the
stored bpm after a call equals the argument.  Clamping to `[20, 300]`
happens at the interactive call sites instead: the ± button handler
`_doIncrement` and the tap estimator `handleTap` only ever install a
clamped tempo (the latter either leaves the metronome untouched or stores
a value in `[20, 300]`). -/
theorem C1_setBpm_amended :
    (∀ (m : Metronome) (b : ℚ), (m.setBpm b).bpm = b)
    ∧ (∀ (m : Metronome) (d : ℚ),
        20 ≤ (doIncrement m d).bpm ∧ (doIncrement m d).bpm ≤ 300)
    ∧ (∀ (ts : List ℚ) (now : ℚ) (m : Metronome),
        (handleTap ts now m).2 = m
        ∨ (20 ≤ (handleTap ts now m).2.bpm ∧ (handleTap ts now m).2.bpm ≤ 300)) := by
  refine ⟨fun m b => rfl, fun m d => ⟨le_max_left _ _, ?_⟩, ?_⟩
  · exact max_le (by norm_num) (min_le_left _ _)
  · intro ts now m
    by_cases h : 2 ≤ (tapBufferAfter ts now).length
    · right
      simp only [handleTap, if_pos h, Metronome.setBpm]
      exact ⟨le_max_left _ _, max_le (by norm_num) (min_le_left _ _)⟩
    · left
      simp only [handleTap, if_neg h]

/-- C2: over any command sequence (ticks at arbitrary clock times
interleaved with `setBpm`/`setSubdivision` calls whose tempos stay in
`[20, 300]`), the emitted `PulseEvent` timestamps are strictly increasing,
adjacent main beats are spaced by exactly `60 / bpm` for the `bpm` in
effect when the earlier beat was generated, and `setBpm` never moves the
committed `nextTime` cursor (phase continuity). -/
theorem C2_phase_continuity (m : Metronome) (cs : List Cmd)
    (h1 : 20 ≤ m.bpm) (_h2 : m.bpm ≤ 300) (hs : 1 ≤ m.subdivision)
    (hv : ∀ c ∈ cs, ValidCmd c) :
    (runCmds m cs).1.Chain' (fun a b => a.time < b.time)
    ∧ (mains (runCmds m cs).1).Chain' (fun a b => b.time = a.time + 60 / a.bpmAtGen)
    ∧ ∀ b, (m.setBpm b).nextTime = m.nextTime := by
  have hb : 0 < m.bpm := by linarith
  have h := segSpec_runCmds cs m hb hs hv
  exact ⟨h.sorted, h.spaced, fun _ => rfl⟩

theorem C2_phase_continuity_witness :
    (20 ≤ (Metronome.mk 120 2 0).bpm ∧ (Metronome.mk 120 2 0).bpm ≤ 300
      ∧ 1 ≤ (Metronome.mk 120 2 0).subdivision
      ∧ ∀ c ∈ [Cmd.tick 0 4, Cmd.setBpm 60, Cmd.tick (1/2) 4], ValidCmd c)
    ∧ ((runCmds (Metronome.mk 120 2 0)
          [Cmd.tick 0 4, Cmd.setBpm 60, Cmd.tick (1/2) 4]).1.Chain'
            (fun a b => a.time < b.time)
        ∧ (mains (runCmds (Metronome.mk 120 2 0)
            [Cmd.tick 0 4, Cmd.setBpm 60, Cmd.tick (1/2) 4]).1).Chain'
              (fun a b => b.time = a.time + 60 / a.bpmAtGen)
        ∧ ∀ b, ((Metronome.mk 120 2 0).setBpm b).nextTime
            = (Metronome.mk 120 2 0).nextTime) :=
  ⟨⟨by decide, by decide, by decide, by decide⟩,
    C2_phase_continuity (Metronome.mk 120 2 0)
      [Cmd.tick 0 4, Cmd.setBpm 60, Cmd.tick (1/2) 4]
      (by decide) (by decide) (by decide) (by decide)⟩

/-- C5: for a main beat at time `t` generated with subdivision `s > 1` and
tempo `bpm`, the non-main events generated for that beat are exactly `s - 1`
sub events at `t + (i/s) * (60/bpm)` for `i = 1 .. s-1`, all strictly
between `t` and the next main beat at `t + 60/bpm` (so none coincides with
it). -/
theorem C5_subdivision_offsets (t bpm : ℚ) (s : ℕ) (hb : 0 < bpm) (_hs : 2 ≤ s) :
    ((beatEvents t (60 / bpm) s bpm).filter (fun e => !e.main)).length = s - 1
    ∧ (∀ e ∈ (beatEvents t (60 / bpm) s bpm).filter (fun e => !e.main),
        ∃ i : ℕ, 1 ≤ i ∧ i ≤ s - 1
          ∧ e.time = t + ((i : ℚ) / (s : ℚ)) * (60 / bpm))
    ∧ (∀ i : ℕ, 1 ≤ i → i ≤ s - 1 →
        ∃ e ∈ (beatEvents t (60 / bpm) s bpm).filter (fun e => !e.main),
          e.time = t + ((i : ℚ) / (s : ℚ)) * (60 / bpm))
    ∧ (∀ e ∈ (beatEvents t (60 / bpm) s bpm).filter (fun e => !e.main),
        t < e.time ∧ e.time < t + 60 / bpm) := by
  have hd : (0 : ℚ) < 60 / bpm := by positivity
  rw [notMains_beatEvents]
  refine ⟨?_, ?_, ?_, subEvents_bounds hd⟩
  · simp [subEvents]
  · intro e he
    obtain ⟨i, hi, rfl⟩ := mem_subEvents.mp he
    refine ⟨i + 1, by omega, by omega, ?_⟩
    push_cast
    ring
  · intro i h1 h2
    refine ⟨⟨t + (((i - 1 : ℕ) : ℚ) + 1) / (s : ℚ) * (60 / bpm), false, bpm⟩,
      mem_subEvents.mpr ⟨i - 1, by omega, rfl⟩, ?_⟩
    have hcast : ((i - 1 : ℕ) : ℚ) = (i : ℚ) - 1 := by
      push_cast [Nat.cast_sub h1]
      ring
    rw [hcast]
    ring

theorem C5_subdivision_offsets_witness :
    ((0 : ℚ) < 120 ∧ 2 ≤ 4)
    ∧ (((beatEvents 0 (60 / 120) 4 120).filter (fun e => !e.main)).length = 4 - 1
      ∧ (∀ e ∈ (beatEvents 0 (60 / 120) 4 120).filter (fun e => !e.main),
          ∃ i : ℕ, 1 ≤ i ∧ i ≤ 4 - 1
            ∧ e.time = 0 + ((i : ℚ) / (4 : ℚ)) * (60 / 120))
      ∧ (∀ i : ℕ, 1 ≤ i → i ≤ 4 - 1 →
          ∃ e ∈ (beatEvents 0 (60 / 120) 4 120).filter (fun e => !e.main),
            e.time = 0 + ((i : ℚ) / (4 : ℚ)) * (60 / 120))
      ∧ (∀ e ∈ (beatEvents 0 (60 / 120) 4 120).filter (fun e => !e.main),
          (0 : ℚ) < e.time ∧ e.time < 0 + 60 / 120)) :=
  ⟨⟨by norm_num, by norm_num⟩, C5_subdivision_offsets 0 120 4 (by norm_num) (by norm_num)⟩

/-- C6 counterexample: a tick that fires after the clock has already
passed the cursor is not bounded by `LOOKAHEAD / beatDuration + 1`: with
`bpm = 300` (beat duration 1/5 s), cursor at 0 and clock at 1 s, the loop
runs 6 iterations to catch up, exceeding the claimed bound of 1.5. -/
theorem C6_counterexample :
    (1 : ℚ) + 1 / 10 ≤ (schedLoop 6 300 1 0 ((1 : ℚ) + 1 / 10)).2.1
    ∧ (schedLoop 6 300 1 0 ((1 : ℚ) + 1 / 10)).2.2 = 6
    ∧ ¬ (((schedLoop 6 300 1 0 ((1 : ℚ) + 1 / 10)).2.2 : ℚ)
          ≤ (1 / 10) / (60 / 300) + 1) := by
  refine ⟨?_, ?_, ?_⟩ <;>
    norm_num [schedLoop, beatEvents, subEvents]

/-- C6 (amended): for any tempo in `[20, 300]` the `_schedule` while loop
always terminates (some finite fuel reaches the exit condition, whatever
the cursor and window), and, provided the scheduler has not fallen behind
the clock (`now ≤ nextTime` — the steady state re-established by every
completed tick since the 25 ms tick period is below the 100 ms lookahead),
it iterates at most `LOOKAHEAD / beatDuration + 1` times.  Concretely, in
that caught-up state fuel 1 already completes the loop (the cursor ends at
or past `now + 1/10`), the iteration count is bounded by
`(1/10) / (60/bpm) + 1`, and granting any additional fuel does not change
the result. -/
theorem C6_tick_termination (bpm : ℚ) (s : ℕ) (next now : ℚ)
    (h1 : 20 ≤ bpm) (h2 : bpm ≤ 300) (hcaught : now ≤ next) :
    (∀ next' limit' : ℚ, ∃ B : ℕ,
      limit' ≤ (schedLoop B bpm s next' limit').2.1)
    ∧ now + 1 / 10 ≤ (schedLoop 1 bpm s next (now + 1 / 10)).2.1
    ∧ ((schedLoop 1 bpm s next (now + 1 / 10)).2.2 : ℚ) ≤ (1 / 10) / (60 / bpm) + 1
    ∧ ∀ f, schedLoop (1 + f) bpm s next (now + 1 / 10)
        = schedLoop 1 bpm s next (now + 1 / 10) := by
  have hb : 0 < bpm := by linarith
  have hd : (0 : ℚ) < 60 / bpm := by positivity
  have hterm : ∀ next' limit' : ℚ, ∃ B : ℕ,
      limit' ≤ (schedLoop B bpm s next' limit').2.1 := by
    intro next' limit'
    refine ⟨(⌈(limit' - next') / (60 / bpm)⌉).toNat, ?_⟩
    have hkey' : limit' - next'
        ≤ ((⌈(limit' - next') / (60 / bpm)⌉.toNat : ℕ) : ℚ) * (60 / bpm) := by
      have hceil : (limit' - next') / (60 / bpm) ≤ (⌈(limit' - next') / (60 / bpm)⌉ : ℚ) :=
        Int.le_ceil _
      have htn : (⌈(limit' - next') / (60 / bpm)⌉ : ℚ)
          ≤ ((⌈(limit' - next') / (60 / bpm)⌉.toNat : ℕ) : ℚ) := by
        exact_mod_cast Int.self_le_toNat _
      have hmul := mul_le_mul_of_nonneg_right (le_trans hceil htn) (le_of_lt hd)
      rw [div_mul_cancel₀ _ (ne_of_gt hd)] at hmul
      exact hmul
    exact (schedLoop_complete _ next' hkey').1
  have hwin : (1 / 10 : ℚ) ≤ 60 / bpm := by
    rw [div_le_div_iff₀ (by norm_num) hb]
    linarith
  have hkey : (now + 1 / 10) - next ≤ ((1 : ℕ) : ℚ) * (60 / bpm) := by
    push_cast
    linarith
  obtain ⟨hfin, hcount⟩ := schedLoop_complete 1 next hkey
  refine ⟨hterm, hfin, ?_, fun f => schedLoop_fuel_stable 1 next hkey f⟩
  have hc : ((schedLoop 1 bpm s next (now + 1 / 10)).2.2 : ℚ) ≤ 1 := by
    exact_mod_cast hcount
  have hpos : (0 : ℚ) ≤ (1 / 10) / (60 / bpm) := by positivity
  linarith

theorem C6_tick_termination_witness :
    ((20 : ℚ) ≤ 120 ∧ (120 : ℚ) ≤ 300 ∧ (0 : ℚ) ≤ 0)
    ∧ ((∀ next' limit' : ℚ, ∃ B : ℕ,
          limit' ≤ (schedLoop B 120 1 next' limit').2.1)
      ∧ (0 : ℚ) + 1 / 10 ≤ (schedLoop 1 120 1 0 ((0 : ℚ) + 1 / 10)).2.1
      ∧ ((schedLoop 1 120 1 0 ((0 : ℚ) + 1 / 10)).2.2 : ℚ)
          ≤ (1 / 10) / (60 / 120) + 1
      ∧ ∀ f, schedLoop (1 + f) 120 1 0 ((0 : ℚ) + 1 / 10)
          = schedLoop 1 120 1 0 ((0 : ℚ) + 1 / 10)) :=
  ⟨⟨by norm_num, by norm_num, le_refl 0⟩,
    C6_tick_termination 120 1 0 0 (by norm_num) (by norm_num) (le_refl 0)⟩

/-- C3: in an active session, a `pass()` that brings `correctCount` up to
`requiredCorrect` completes the session when the pulse-normalized rate has
reached the target, and otherwise advances `currentBpm` to
`min(targetBpm/targetPulse * currentPulse, currentBpm + increment)` — never
overshooting the normalized target — and resets `correctCount`.  With the
worked-example settings (60 → 120, quarter/quarter, requiredCorrect 1,
increment 10) the first `pass()` yields 70, the sixth reaches exactly 120,
and the next `pass()` completes the session, no earlier one having done
so. -/
theorem C3_pass_progression :
    (∀ sys : Sys, sys.practiceMode = true →
      sys.settings.requiredCorrect ≤ (sys.state.correctCount : ℚ) + 1 →
      ((sys.settings.targetBpm / sys.settings.targetPulse.toQ
          ≤ sys.state.currentBpm / sys.state.currentPulse →
        (handlePass sys).2 = true ∧ (handlePass sys).1.practiceMode = false)
      ∧ (¬ sys.settings.targetBpm / sys.settings.targetPulse.toQ
          ≤ sys.state.currentBpm / sys.state.currentPulse →
        (handlePass sys).2 = false
        ∧ (handlePass sys).1.state.currentBpm
            = min (sys.settings.targetBpm / sys.settings.targetPulse.toQ
                    * sys.state.currentPulse)
                (sys.state.currentBpm + sys.settings.increment)
        ∧ (handlePass sys).1.state.currentBpm
            ≤ sys.settings.targetBpm / sys.settings.targetPulse.toQ
                * sys.state.currentPulse
        ∧ (handlePass sys).1.state.correctCount = 0)))
    ∧ (passes 1 practiceDemoSys).state.currentBpm = 70
    ∧ (passes 6 practiceDemoSys).state.currentBpm = 120
    ∧ (handlePass (passes 6 practiceDemoSys)).2 = true
    ∧ (∀ k, k < 6 → (handlePass (passes k practiceDemoSys)).2 = false) := by
  refine ⟨?_, by norm_num [passes, practiceDemoSys, startPracticeMode, handlePass,
      PulseUnit.toQ, Metronome.setBpm],
    by norm_num [passes, practiceDemoSys, startPracticeMode, handlePass,
      PulseUnit.toQ, Metronome.setBpm],
    by norm_num [passes, practiceDemoSys, startPracticeMode, handlePass,
      PulseUnit.toQ, Metronome.setBpm],
    ?_⟩
  case refine_2 =>
    intro k hk
    interval_cases k <;>
      norm_num [passes, practiceDemoSys, startPracticeMode, handlePass,
        PulseUnit.toQ, Metronome.setBpm]
  intro sys hm hreq
  constructor
  · intro hrate
    simp [handlePass, hm, hreq, hrate]
  · intro hrate
    refine ⟨?_, ?_, ?_, ?_⟩ <;>
      simp [handlePass, hm, hreq, hrate, min_le_left]

theorem C3_pass_progression_witness :
    (practiceDemoSys.practiceMode = true
      ∧ practiceDemoSys.settings.requiredCorrect
          ≤ (practiceDemoSys.state.correctCount : ℚ) + 1)
    ∧ ((practiceDemoSys.settings.targetBpm / practiceDemoSys.settings.targetPulse.toQ
          ≤ practiceDemoSys.state.currentBpm / practiceDemoSys.state.currentPulse →
        (handlePass practiceDemoSys).2 = true
        ∧ (handlePass practiceDemoSys).1.practiceMode = false)
      ∧ (¬ practiceDemoSys.settings.targetBpm / practiceDemoSys.settings.targetPulse.toQ
          ≤ practiceDemoSys.state.currentBpm / practiceDemoSys.state.currentPulse →
        (handlePass practiceDemoSys).2 = false
        ∧ (handlePass practiceDemoSys).1.state.currentBpm
            = min (practiceDemoSys.settings.targetBpm
                    / practiceDemoSys.settings.targetPulse.toQ
                    * practiceDemoSys.state.currentPulse)
                (practiceDemoSys.state.currentBpm + practiceDemoSys.settings.increment)
        ∧ (handlePass practiceDemoSys).1.state.currentBpm
            ≤ practiceDemoSys.settings.targetBpm
                / practiceDemoSys.settings.targetPulse.toQ
                * practiceDemoSys.state.currentPulse
        ∧ (handlePass practiceDemoSys).1.state.correctCount = 0)) :=
  ⟨⟨by decide, by norm_num [practiceDemoSys, startPracticeMode]⟩,
    C3_pass_progression.1 practiceDemoSys (by decide)
      (by norm_num [practiceDemoSys, startPracticeMode])⟩

/-- C4: in an active session each `fail()` resets `correctCount`, drops
`currentBpm` to `max(20, currentBpm - penalty)`, and increments
`consecutiveFails` except that on reaching 3 it emits the one suggest-break
signal and resets the counter; three consecutive `fail()` calls from a
clean counter signal exactly once, on the third call. -/
theorem C4_fail_behavior :
    (∀ sys : Sys, sys.practiceMode = true →
      (handleFail sys).1.state.correctCount = 0
      ∧ (handleFail sys).1.state.currentBpm
          = max 20 (sys.state.currentBpm - sys.settings.penalty)
      ∧ (handleFail sys).1.state.consecutiveFails
          = (if 3 ≤ sys.state.consecutiveFails + 1 then 0
             else sys.state.consecutiveFails + 1)
      ∧ ((handleFail sys).2 = true ↔ 3 ≤ sys.state.consecutiveFails + 1))
    ∧ (∀ sys : Sys, sys.practiceMode = true → sys.state.consecutiveFails = 0 →
      (handleFail sys).2 = false
      ∧ (handleFail sys).1.state.consecutiveFails = 1
      ∧ (handleFail (handleFail sys).1).2 = false
      ∧ (handleFail (handleFail sys).1).1.state.consecutiveFails = 2
      ∧ (handleFail (handleFail (handleFail sys).1).1).2 = true
      ∧ (handleFail (handleFail (handleFail sys).1).1).1.state.consecutiveFails = 0) := by
  constructor
  · intro sys hm
    by_cases h3 : 3 ≤ sys.state.consecutiveFails + 1 <;>
      simp [handleFail, hm, h3]
  · intro sys hm hcf
    simp [handleFail, hm, hcf]

theorem C4_fail_behavior_witness :
    (scaleDemoSys.practiceMode = true ∧ scaleDemoSys.state.consecutiveFails = 0)
    ∧ ((handleFail scaleDemoSys).2 = false
      ∧ (handleFail scaleDemoSys).1.state.consecutiveFails = 1
      ∧ (handleFail (handleFail scaleDemoSys).1).2 = false
      ∧ (handleFail (handleFail scaleDemoSys).1).1.state.consecutiveFails = 2
      ∧ (handleFail (handleFail (handleFail scaleDemoSys).1).1).2 = true
      ∧ (handleFail (handleFail (handleFail scaleDemoSys).1).1).1.state.consecutiveFails
          = 0) :=
  ⟨⟨by decide, by decide⟩, C4_fail_behavior.2 scaleDemoSys (by decide) (by decide)⟩

/-- C7 counterexample: the practice-mode double applies
`Math.floor(metro.bpm * 2)` before the `min`, so from `bpm = 241/4`
(60.25) it yields 120, not the claimed `min(300, bpm * 2) = 120.5`. -/
theorem C7_counterexample :
    (startHoldInc
      { metro := ⟨241 / 4, 1, 0⟩
        practiceMode := true
        settings := ⟨60, .quarter, 120, .quarter, 1, 10, 10⟩
        state := ⟨241 / 4, 0, 0, 4⟩ }).metro.bpm = 120
    ∧ (120 : ℚ) ≠ min 300 ((241 / 4 : ℚ) * 2) := by
  constructor
  · norm_num [startHoldInc, Metronome.setBpm]
  · norm_num

/-- C7 (amended): `scalePulse` round trip and boundaries hold, with the
double step computing `min(300, floor(bpm * 2))` (the source floors the
doubled tempo): from `{bpm: 60, pulseUnit: 4}` double gives
`{bpm: 120, pulseUnit: 8}` and halve returns to `{bpm: 60, pulseUnit: 4}`;
double is a no-op at `pulseUnit = 16` and halve at `pulseUnit = 1`; in
general double maps `(bpm, u)` to `(min(300, floor(bpm*2)), 2u)` for
`u < 16` and halve maps `(bpm, u)` to `(max(20, floor(bpm/2)), u/2)` for
`u > 1`. -/
theorem C7_scale_pulse_amended :
    ((startHoldInc scaleDemoSys).metro.bpm = 120
      ∧ (startHoldInc scaleDemoSys).state.currentPulse = 8
      ∧ (startHoldDec (startHoldInc scaleDemoSys)).metro.bpm = 60
      ∧ (startHoldDec (startHoldInc scaleDemoSys)).state.currentPulse = 4
      ∧ (startHoldDec (startHoldInc scaleDemoSys)).state.currentBpm = 60)
    ∧ (∀ sys : Sys, sys.practiceMode = true → sys.state.currentPulse = 16 →
        startHoldInc sys = sys)
    ∧ (∀ sys : Sys, sys.practiceMode = true → sys.state.currentPulse = 1 →
        startHoldDec sys = sys)
    ∧ (∀ sys : Sys, sys.practiceMode = true → sys.state.currentPulse < 16 →
        (startHoldInc sys).metro.bpm = min 300 ((⌊sys.metro.bpm * 2⌋ : ℤ) : ℚ)
        ∧ (startHoldInc sys).state.currentBpm = (startHoldInc sys).metro.bpm
        ∧ (startHoldInc sys).state.currentPulse = sys.state.currentPulse * 2)
    ∧ (∀ sys : Sys, sys.practiceMode = true → 1 < sys.state.currentPulse →
        (startHoldDec sys).metro.bpm = max 20 ((⌊sys.metro.bpm / 2⌋ : ℤ) : ℚ)
        ∧ (startHoldDec sys).state.currentBpm = (startHoldDec sys).metro.bpm
        ∧ (startHoldDec sys).state.currentPulse = sys.state.currentPulse / 2) := by
  refine ⟨?_, ?_, ?_, ?_, ?_⟩
  · refine ⟨?_, ?_, ?_, ?_, ?_⟩ <;>
      norm_num [scaleDemoSys, startHoldInc, startHoldDec, Metronome.setBpm]
  · intro sys hm hp
    simp [startHoldInc, hm, hp]
  · intro sys hm hp
    simp [startHoldDec, hm, hp]
  · intro sys hm hp
    refine ⟨?_, ?_, ?_⟩ <;> simp [startHoldInc, hm, hp, Metronome.setBpm]
  · intro sys hm hp
    refine ⟨?_, ?_, ?_⟩ <;> simp [startHoldDec, hm, hp, Metronome.setBpm]

theorem C7_scale_pulse_amended_witness :
    (scaleDemoSys.practiceMode = true ∧ scaleDemoSys.state.currentPulse < 16)
    ∧ ((startHoldInc scaleDemoSys).metro.bpm
        = min 300 ((⌊scaleDemoSys.metro.bpm * 2⌋ : ℤ) : ℚ)
      ∧ (startHoldInc scaleDemoSys).state.currentBpm
          = (startHoldInc scaleDemoSys).metro.bpm
      ∧ (startHoldInc scaleDemoSys).state.currentPulse
          = scaleDemoSys.state.currentPulse * 2) :=
  ⟨⟨by decide, by norm_num [scaleDemoSys]⟩,
    C7_scale_pulse_amended.2.2.2.1 scaleDemoSys (by decide)
      (by norm_num [scaleDemoSys])⟩

/-- C8 counterexample: the tap estimator rounds — two taps 700 ms apart
set the tempo to `Math.round(60000 / 700) = 86`, not the claimed unrounded
`clamp(60000 / 700) = 600/7`. -/
theorem C8_counterexample :
    (handleTap [0] 700 (Metronome.mk 100 1 0)).2.bpm = 86
    ∧ (86 : ℚ) ≠ max 20 (min 300 ((60000 : ℚ) / 700)) := by
  constructor
  · norm_num [handleTap, tapBufferAfter, tapExpire, intervalsOf, jsRound,
      Metronome.setBpm]
  · norm_num

/-- C8 (amended): the tap estimator keeps at most the last 5 taps, one tap
alone produces no estimate, taps at 0/500/1000/1500 ms set 120 BPM, a gap
of more than 5000 ms clears the buffer so the next tap starts a fresh
(estimate-free) buffer, and with at least 2 buffered taps the stored tempo
is `60000 / mean interval`, rounded to the nearest integer and clamped to
`[20, 300]`. -/
theorem C8_tap_estimator_amended :
    (∀ (ts : List ℚ) (now : ℚ), ts.length ≤ 5 →
      (tapBufferAfter ts now).length ≤ 5)
    ∧ (∀ (now : ℚ) (m : Metronome),
        (handleTap [] now m).2 = m ∧ (handleTap [] now m).1 = [now])
    ∧ ((handleTap (handleTap [] 0 (Metronome.mk 100 1 0)).1 500
          (handleTap [] 0 (Metronome.mk 100 1 0)).2).2.bpm = 120
      ∧ (handleTap
          (handleTap (handleTap [] 0 (Metronome.mk 100 1 0)).1 500
            (handleTap [] 0 (Metronome.mk 100 1 0)).2).1 1000
          (handleTap (handleTap [] 0 (Metronome.mk 100 1 0)).1 500
            (handleTap [] 0 (Metronome.mk 100 1 0)).2).2).2.bpm = 120
      ∧ (handleTap
          (handleTap
            (handleTap (handleTap [] 0 (Metronome.mk 100 1 0)).1 500
              (handleTap [] 0 (Metronome.mk 100 1 0)).2).1 1000
            (handleTap (handleTap [] 0 (Metronome.mk 100 1 0)).1 500
              (handleTap [] 0 (Metronome.mk 100 1 0)).2).2).1 1500
          (handleTap
            (handleTap (handleTap [] 0 (Metronome.mk 100 1 0)).1 500
              (handleTap [] 0 (Metronome.mk 100 1 0)).2).1 1000
            (handleTap (handleTap [] 0 (Metronome.mk 100 1 0)).1 500
              (handleTap [] 0 (Metronome.mk 100 1 0)).2).2).2).2.bpm = 120)
    ∧ (∀ (ts : List ℚ) (l now : ℚ) (m : Metronome),
        ts.getLast? = some l → now - l > 5000 →
        (handleTap ts now m).1 = [now] ∧ (handleTap ts now m).2 = m)
    ∧ (∀ (ts : List ℚ) (now : ℚ) (m : Metronome),
        2 ≤ (tapBufferAfter ts now).length →
        (handleTap ts now m).2.bpm
          = max 20 (min 300
              ((jsRound (60000 /
                  ((intervalsOf (tapBufferAfter ts now)).sum /
                    ((intervalsOf (tapBufferAfter ts now)).length : ℚ))) : ℤ) : ℚ))) := by
  refine ⟨tapBufferAfter_length_le, ?_, ?_, ?_, ?_⟩
  · intro now m
    constructor <;> norm_num [handleTap, tapBufferAfter, tapExpire]
  · refine ⟨?_, ?_, ?_⟩ <;>
      norm_num [handleTap, tapBufferAfter, tapExpire, intervalsOf, jsRound,
        Metronome.setBpm]
  · intro ts l now m hl hgap
    have hexp : tapExpire ts now = [] := by
      rw [tapExpire, hl]
      simp [hgap]
    have hbuf : tapBufferAfter ts now = [now] := by
      rw [tapBufferAfter, hexp]
      simp
    constructor <;> simp [handleTap, hbuf]
  · intro ts now m h
    simp only [handleTap, if_pos h, Metronome.setBpm]

theorem C8_tap_estimator_amended_witness :
    (([(0 : ℚ)].getLast? = some 0 ∧ (6000 : ℚ) - 0 > 5000)
      ∧ ((handleTap [0] 6000 (Metronome.mk 100 1 0)).1 = [6000]
        ∧ (handleTap [0] 6000 (Metronome.mk 100 1 0)).2 = Metronome.mk 100 1 0))
    ∧ (([(0 : ℚ), 500].length ≤ 5)
      ∧ (tapBufferAfter [(0 : ℚ), 500] 1000).length ≤ 5) :=
  ⟨⟨⟨by decide, by norm_num⟩,
      C8_tap_estimator_amended.2.2.2.1 [0] 0 6000 (Metronome.mk 100 1 0)
        (by decide) (by norm_num)⟩,
    ⟨by decide, C8_tap_estimator_amended.1 [(0 : ℚ), 500] 1000 (by decide)⟩⟩

/-- C9: `savePracticeSettings` clamps `requiredCorrect` and `increment`
(with a NaN/zero fallback to the previous value) but the penalty line
`Math.max(0, Number(psPenalty.value))` has no fallback, so a non-numeric
penalty input stores NaN (`none`) — the claimed `penalty >= 0` fails —
while every numeric input is clamped as claimed. -/
theorem C9_penalty_nan :
    (savePracticeSettings ⟨60, 120, 1, 10, some 10⟩
        (some 60) (some 120) (some 1) (some 10) none).penalty = none
    ∧ (∀ (prev : StoredSettings) (vS vT vR vI : Option ℚ) (q : ℚ),
        1 ≤ (savePracticeSettings prev vS vT vR vI (some q)).requiredCorrect
        ∧ 1 ≤ (savePracticeSettings prev vS vT vR vI (some q)).increment
        ∧ (savePracticeSettings prev vS vT vR vI (some q)).penalty = some (max 0 q)
        ∧ (0 : ℚ) ≤ max 0 q) :=
  ⟨rfl, fun _ _ _ _ _ q =>
    ⟨le_max_left _ _, le_max_left _ _, rfl, le_max_left _ _⟩⟩

/-- C10: every practice operation that changes the session tempo pushes it
to the scheduler in the same step, so afterwards the metronome's stored
`bpm` equals `practiceState.currentBpm`: session start, a level-advancing
`pass()`, any `fail()`, and the pulse double/halve. -/
theorem C10_practice_sync :
    (∀ sys : Sys,
      (startPracticeMode sys).metro.bpm = (startPracticeMode sys).state.currentBpm)
    ∧ (∀ sys : Sys, sys.practiceMode = true →
      (handleFail sys).1.metro.bpm = (handleFail sys).1.state.currentBpm)
    ∧ (∀ sys : Sys, sys.practiceMode = true →
      sys.settings.requiredCorrect ≤ (sys.state.correctCount : ℚ) + 1 →
      ¬ sys.settings.targetBpm / sys.settings.targetPulse.toQ
          ≤ sys.state.currentBpm / sys.state.currentPulse →
      (handlePass sys).1.metro.bpm = (handlePass sys).1.state.currentBpm)
    ∧ (∀ sys : Sys, sys.practiceMode = true → sys.state.currentPulse < 16 →
      (startHoldInc sys).metro.bpm = (startHoldInc sys).state.currentBpm)
    ∧ (∀ sys : Sys, sys.practiceMode = true → 1 < sys.state.currentPulse →
      (startHoldDec sys).metro.bpm = (startHoldDec sys).state.currentBpm) := by
  refine ⟨fun sys => rfl, ?_, ?_, ?_, ?_⟩
  · intro sys hm
    by_cases h3 : 3 ≤ sys.state.consecutiveFails + 1 <;>
      simp [handleFail, hm, h3, Metronome.setBpm]
  · intro sys hm hreq hrate
    simp [handlePass, hm, hreq, hrate, Metronome.setBpm]
  · intro sys hm hp
    simp [startHoldInc, hm, hp, Metronome.setBpm]
  · intro sys hm hp
    simp [startHoldDec, hm, hp, Metronome.setBpm]

theorem C10_practice_sync_witness :
    (scaleDemoSys.practiceMode = true)
    ∧ ((handleFail scaleDemoSys).1.metro.bpm
        = (handleFail scaleDemoSys).1.state.currentBpm) :=
  ⟨by decide, C10_practice_sync.2.1 scaleDemoSys (by decide)⟩
